import Mathlib

/-!
Verification of the `rpc` message-ordering and call-correlation engine of
mixer/cdk-std (`src/rpc.ts`), as a shallow embedding in Lean 4.

The embedding mirrors the `RPC` class: its mutable instance fields become the
record `Rpc.RPCState`, and each method becomes a function from a state to a
state paired with the list of observable actions it performs synchronously
(`Rpc.Out`): messages posted to the target window, EventEmitter emissions,
handler invocations, and resolutions/rejections of pending calls.

Modelling notes, tied to the source:
* `counter` values are JavaScript numbers used as integers; they are modelled
  as `Int` (the engine compares them and subtracts 1 from them).
* The EventEmitter is modelled by the multiset `exposed` of method names that
  have a listener registered via `expose`; `this.listeners(m).length > 0`
  becomes a positive count, and `emit(m, packet)` invokes one handler per
  registered listener.  Every callback stored in `this.calls` by `call` has
  the single shape `(err, res) => err ? reject(err) : resolve(res)`, so the
  pending-call table is modelled by the list of pending call ids and the
  resolution is reported as an `Out.resolveCall`/`Out.rejectCall` action.
* The handler bodies passed to `expose` run application code and reply
  asynchronously (via `Promise.resolve(...).then`); the synchronous engine
  step records the invocation itself (`Out.invokeHandler`) and stops at that
  asynchronous boundary.
* Inbound events (`document` "message" events) are modelled by `Rpc.Inbound`:
  either `parseError` — a payload on which `JSON.parse(ev.data)` throws (or
  parses to `null`, so that the subsequent property access throws) — or
  `data d` where `d : Rpc.RawData` gives the duck-typed fields read by
  `isRPCMessage` and the listener.  A thrown exception is modelled by the
  listener returning `Except.error ()`.
-/

namespace Rpc

/-- Opaque JSON-serialisable value used for results and handler payloads. -/
inductive JVal where
  | null
  | num (n : Int)
  | str (s : String)
deriving DecidableEq

/-- The fields of a `params` object that the engine itself ever reads:
`packet.params.protocolVersion` (read by the "ready" branch of the listener;
`none` models a missing field).  `payload` stands for the rest of the
application-level parameters, which the engine passes through untouched. -/
structure ParamsV where
  protocolVersion : Option String := none
  payload : JVal := JVal.null
deriving DecidableEq

/-- The `error` object optionally carried by a reply
(`{code, message, path?}`). -/
structure ErrObj where
  code : Int
  message : String
  path : Option (List String) := none
deriving DecidableEq

/-- `RPCError` from `rpc.ts`: the structured error a rejected call carries
(`code`, `message`, optional `path`). -/
structure RPCErrorS where
  code : Int
  message : String
  path : Option (List String)
deriving DecidableEq

/-- `objToError` from `rpc.ts`. -/
def objToError (o : ErrObj) : RPCErrorS :=
  ⟨o.code, o.message, o.path⟩

/-- `RPCMessage<T>`: either an `IRPCMethod` or an `IRPCReply`.  The
`serviceID` field is not stored here: every message the engine constructs
carries the constant `RPC.serviceID`, and every inbound message is processed
only after its `serviceID` has been checked against that constant (see
`listener`), so it is kept in `RawData` instead. -/
inductive RPCMsg where
  | method (id : Nat) (methodName : String) (discard : Bool) (params : ParamsV)
  | reply (id : Nat) (result : JVal) (error : Option ErrObj)
deriving DecidableEq

/-- `RPCMessageWithCounter<T>`: a message stamped with its `counter`. -/
structure PacketC where
  msg : RPCMsg
  counter : Int
deriving DecidableEq

/-- `RPC.serviceID`, the constant service tag. -/
def serviceID : String := "8f5b3a83-dd7b-4b8a-84ad-146948bc8d27"

/-- The mutable instance fields of the `RPC` class, plus `exposed` (the
EventEmitter's registration table restricted to what the engine consults:
the multiset of method names with a listener) and `attached` (whether the
"message" listener is currently attached to the document; the constructor
attaches it and `destroy` removes it). -/
structure RPCState where
  idCounter : Nat := 0
  calls : List Nat := []
  callCounter : Nat := 0
  remoteCallQueue : List PacketC := []
  lastSequentialCall : Int := -1
  remoteProtocolVersion : Option String := none
  exposed : List String := []
  attached : Bool := true
deriving DecidableEq

/-- Observable synchronous actions of one engine step:
`emitEvent` is a monitoring emit identified by name ("sendMethod",
"destroy"); `recv` is the "recvMethod"/"recvReply" emit made by
`dispatchIncoming` (the name is determined by the packet's kind); `post` is
`target.postMessage` of the counter-stamped message; `invokeHandler` is the
invocation of the listeners registered for a method (the expose wrapper then
runs application code asynchronously); `resolveCall`/`rejectCall` is the
stored resolver of a pending call firing. -/
inductive Out where
  | emitEvent (name : String)
  | recv (p : PacketC)
  | post (p : PacketC)
  | invokeHandler (methodName : String) (id : Nat) (discard : Bool) (params : ParamsV)
  | resolveCall (id : Nat) (result : JVal)
  | rejectCall (id : Nat) (e : RPCErrorS)
deriving DecidableEq

/-- `RPC.post`: stamps the message with `this.callCounter++` and posts it to
the target window. -/
def postMsg (s : RPCState) (m : RPCMsg) : RPCState × Out :=
  ({ s with callCounter := s.callCounter + 1 }, Out.post ⟨m, (s.callCounter : Int)⟩)

/-- `RPC.call`: allocates `id = this.idCounter++`, posts a method packet with
`discard = !waitForReply`, and when a reply is wanted registers the resolver
under `id` in `this.calls`. -/
def call (s : RPCState) (methodName : String) (params : ParamsV) (waitForReply : Bool) :
    RPCState × List Out :=
  let id := s.idCounter
  let s1 := { s with idCounter := id + 1 }
  let r := postMsg s1 (RPCMsg.method id methodName (!waitForReply) params)
  if waitForReply then
    ({ r.1 with calls := r.1.calls ++ [id] }, [Out.emitEvent "sendMethod", r.2])
  else
    (r.1, [Out.emitEvent "sendMethod", r.2])

/-- The `RPC` constructor: fresh fields, listener attached, and an immediate
fire-and-forget `ready` call carrying this side's protocol version. -/
def construct (protocolVersion : String) : RPCState × List Out :=
  call {} "ready" { protocolVersion := some protocolVersion } false

/-- `RPC.expose`: registers one more listener for `methodName`. -/
def expose (s : RPCState) (methodName : String) : RPCState :=
  { s with exposed := s.exposed ++ [methodName] }

/-- `RPC.destroy`: emits "destroy" and detaches the document listener. -/
def destroy (s : RPCState) : RPCState × List Out :=
  ({ s with attached := false }, [Out.emitEvent "destroy"])

/-- `RPC.remoteVersion`. -/
def remoteVersion (s : RPCState) : Option String :=
  s.remoteProtocolVersion

/-- `RPC.handleReply`: looks the reply's `id` up in `this.calls`; if absent,
returns silently; otherwise invokes the stored resolver (reject on an error
payload, resolve otherwise) and deletes the entry. -/
def handleReply (s : RPCState) (id : Nat) (result : JVal) (error : Option ErrObj) :
    RPCState × List Out :=
  if id ∈ s.calls then
    match error with
    | some e => ({ s with calls := s.calls.erase id }, [Out.rejectCall id (objToError e)])
    | none => ({ s with calls := s.calls.erase id }, [Out.resolveCall id result])
  else
    (s, [])

/-- `RPC.dispatchIncoming`: records `lastSequentialCall = packet.counter`,
then dispatches: a method packet is emitted to its listeners when any are
registered and otherwise answered with the code-4003 "Unknown method name"
error reply; a reply packet goes to `handleReply`. -/
def dispatchIncoming (s : RPCState) (p : PacketC) : RPCState × List Out :=
  let s0 := { s with lastSequentialCall := p.counter }
  match p.msg with
  | RPCMsg.method id m disc params =>
    if 0 < s0.exposed.count m then
      (s0, Out.recv p :: List.replicate (s0.exposed.count m) (Out.invokeHandler m id disc params))
    else
      let r := postMsg s0 (RPCMsg.reply id JVal.null (some ⟨4003, "Unknown method name", none⟩))
      (r.1, [Out.recv p, r.2])
  | RPCMsg.reply id result error =>
    let r := handleReply s0 id result error
    (r.1, Out.recv p :: r.2)

/-- The loop body of `RPC.replayQueue`, with an explicit iteration bound:
the while loop dispatches the head of `remoteCallQueue` while its counter is
at most `lastSequentialCall + 1`; each iteration shifts one element off the
queue (and dispatching never enqueues), so the queue length bounds the number
of iterations and `replayQueueF s.remoteCallQueue.length s` (see
`replayQueue`) is the exact loop.  `replayQueueF_of_le` proves the bound
immaterial beyond the queue length. -/
def replayQueueF : Nat → RPCState → RPCState × List Out
  | 0, s => (s, [])
  | fuel + 1, s =>
    match s.remoteCallQueue with
    | [] => (s, [])
    | next :: rest =>
      if next.counter > s.lastSequentialCall + 1 then
        (s, [])
      else
        ((replayQueueF fuel (dispatchIncoming { s with remoteCallQueue := rest } next).1).1,
          (dispatchIncoming { s with remoteCallQueue := rest } next).2 ++
            (replayQueueF fuel (dispatchIncoming { s with remoteCallQueue := rest } next).1).2)

/-- `RPC.replayQueue`: repeatedly dispatches the head of `remoteCallQueue`
while its counter is at most `lastSequentialCall + 1`. -/
def replayQueue (s : RPCState) : RPCState × List Out :=
  replayQueueF s.remoteCallQueue.length s

/-- The "ready" branch at the top of `RPC.listener`: on a method packet for
"ready", set `lastSequentialCall = packet.counter - 1`, record the peer's
`params.protocolVersion`, and reset `callCounter` to 0; otherwise leave the
state unchanged. -/
def handleReadyReset (s : RPCState) (p : PacketC) : RPCState :=
  match p.msg with
  | RPCMsg.method _ m _ params =>
    if m = "ready" then
      { s with lastSequentialCall := p.counter - 1,
               remoteProtocolVersion := params.protocolVersion,
               callCounter := 0 }
    else s
  | RPCMsg.reply _ _ _ => s

/-- The insertion loop at the bottom of `RPC.listener`: splice the packet in
before the first queued packet with a strictly greater counter, else push it
at the end. -/
def insertQueue (p : PacketC) : List PacketC → List PacketC
  | [] => [p]
  | q :: rest => if q.counter > p.counter then p :: q :: rest else q :: insertQueue p rest

/-- The body of `RPC.listener` after validation, on the typed packet: the
"ready" reset, then either immediate dispatch followed by a queue replay
(when `packet.counter <= lastSequentialCall + 1`) or sorted insertion into
`remoteCallQueue`. -/
def processPacket (s : RPCState) (p : PacketC) : RPCState × List Out :=
  let s0 := handleReadyReset s p
  if p.counter ≤ s0.lastSequentialCall + 1 then
    ((replayQueue (dispatchIncoming s0 p).1).1,
      (dispatchIncoming s0 p).2 ++ (replayQueue (dispatchIncoming s0 p).1).2)
  else
    ({ s0 with remoteCallQueue := insertQueue p s0.remoteCallQueue }, [])

/-- The duck-typed fields of a successfully parsed inbound payload that the
validation and the listener read.  `type`, `counter` and `serviceID` are
optional because `isRPCMessage` and the listener test them against absence;
the remaining fields are read only after validation has established the
packet's kind, and are modelled total. -/
structure RawData where
  type : Option String := none
  counter : Option Int := none
  serviceID : Option String := none
  id : Nat := 0
  method : String := ""
  discard : Bool := false
  params : ParamsV := {}
  result : JVal := JVal.null
  error : Option ErrObj := none
deriving DecidableEq

/-- `isRPCMessage` from `rpc.ts`: the payload's `type` is "method" or
"reply" and its `counter` is a number. -/
def isRPCMessage (d : RawData) : Bool :=
  (d.type == some "method" || d.type == some "reply") && d.counter.isSome

/-- Reads the typed packet out of a validated payload (the listener treats
the parsed object as an `RPCMessageWithCounter` once `isRPCMessage` holds). -/
def toPacket (d : RawData) : PacketC :=
  { msg :=
      if d.type == some "method" then
        RPCMsg.method d.id d.method d.discard d.params
      else
        RPCMsg.reply d.id d.result d.error,
    counter := d.counter.getD 0 }

/-- An inbound document "message" event, as seen by the listener after
`JSON.parse`: `parseError` models a payload on which `JSON.parse(ev.data)`
throws (or yields `null`, so that `data.type` throws); `data d` models a
successfully parsed object. -/
inductive Inbound where
  | parseError
  | data (d : RawData)
deriving DecidableEq

/-- `RPC.listener`: parse the payload (a parse failure throws, modelled as
`Except.error ()`), silently drop it unless `isRPCMessage` holds and the
`serviceID` matches, and otherwise process the typed packet. -/
def listener (s : RPCState) (ev : Inbound) : Except Unit (RPCState × List Out) :=
  match ev with
  | Inbound.parseError => Except.error ()
  | Inbound.data d =>
    if !isRPCMessage d || d.serviceID != some serviceID then
      Except.ok (s, [])
    else
      Except.ok (processPacket s (toPacket d))

/-- Document-level delivery: the listener only runs while it is attached
(between construction and `destroy`). -/
def deliver (s : RPCState) (ev : Inbound) : Except Unit (RPCState × List Out) :=
  if s.attached then listener s ev else Except.ok (s, [])

/-- Delivers a list of inbound events in order, concatenating the observable
actions; an exception aborts the run. -/
def runInbound (s : RPCState) : List Inbound → Except Unit (RPCState × List Out)
  | [] => Except.ok (s, [])
  | ev :: rest =>
    match deliver s ev with
    | Except.error e => Except.error e
    | Except.ok r =>
      match runInbound r.1 rest with
      | Except.error e => Except.error e
      | Except.ok r2 => Except.ok (r2.1, r.2 ++ r2.2)

/-- A validated raw method payload (used to state claims about inbound
invocations). -/
def rawOfMethod (id : Nat) (m : String) (disc : Bool) (pv : ParamsV) (c : Int) : RawData :=
  { type := some "method", counter := some c, serviceID := some serviceID,
    id := id, method := m, discard := disc, params := pv }

/-- A validated raw reply payload. -/
def rawOfReply (id : Nat) (r : JVal) (e : Option ErrObj) (c : Int) : RawData :=
  { type := some "reply", counter := some c, serviceID := some serviceID,
    id := id, result := r, error := e }

/-- Recognises handler invocations among the observable actions. -/
def isInvoke : Out → Bool
  | Out.invokeHandler _ _ _ _ => true
  | _ => false

/-- A family of method invocations towards one engine: every packet `i`
carries the same method name `m`, call id `ids i`, discard flag `disc i`,
payload `prm i`, and counter `i`. -/
structure Scenario where
  m : String
  ids : Nat → Nat
  disc : Nat → Bool
  prm : Nat → ParamsV

/-- The `i`-th packet of a scenario. -/
def Scenario.pkt (sc : Scenario) (i : Nat) : PacketC :=
  ⟨RPCMsg.method (sc.ids i) sc.m (sc.disc i) (sc.prm i), (i : Int)⟩

/-- The handler invocation the `i`-th packet of a scenario produces. -/
def Scenario.invokeOf (sc : Scenario) (i : Nat) : Out :=
  Out.invokeHandler sc.m (sc.ids i) (sc.disc i) (sc.prm i)

/-- The raw inbound event carrying the `i`-th packet of a scenario. -/
def Scenario.rawEv (sc : Scenario) (i : Nat) : Inbound :=
  Inbound.data (rawOfMethod (sc.ids i) sc.m (sc.disc i) (sc.prm i) (i : Int))

/-- The observable actions of dispatching scenario packets
`a, a+1, ..., a+n-1` in order to a singly-exposed handler. -/
def Scenario.drainOuts (sc : Scenario) : Nat → Nat → List Out
  | _, 0 => []
  | a, n + 1 => Out.recv (sc.pkt a) :: sc.invokeOf a :: sc.drainOuts (a + 1) n

/-- The length of the initial run `c+1, c+2, ...` of consecutive counters at
the front of a queue (how many entries a replay starting after `c` drains). -/
def chain : Nat → List Nat → Nat
  | _, [] => 0
  | c, x :: xs => if x = c + 1 then chain (c + 1) xs + 1 else 0

/-- Sorted insertion on counter lists, mirroring `insertQueue`. -/
def insertNat (j : Nat) : List Nat → List Nat
  | [] => [j]
  | x :: xs => if x > j then j :: x :: xs else x :: insertNat j xs

/-- The reorder-buffer invariant: the queue is sorted by counter in ascending
order and every queued packet's counter is strictly greater than
`lastSequentialCall + 1`. -/
def QueueInv (s : RPCState) : Prop :=
  List.Sorted (fun p q : PacketC => p.counter ≤ q.counter) s.remoteCallQueue ∧
    ∀ p ∈ s.remoteCallQueue, s.lastSequentialCall + 1 < p.counter

/-- Recognises an inbound payload that the listener accepts as a "ready"
invocation (well-formed, matching service tag, method name "ready"). -/
def isReadyRecv : Inbound → Bool
  | Inbound.parseError => false
  | Inbound.data d =>
    isRPCMessage d && d.serviceID == some serviceID &&
      d.type == some "method" && d.method == "ready"

theorem dispatchIncoming_queue (s : RPCState) (p : PacketC) :
    ((dispatchIncoming s p).1).remoteCallQueue = s.remoteCallQueue := by
  rcases p with ⟨msg, c⟩
  rcases msg with ⟨id, m, disc, params⟩ | ⟨id, result, error⟩ <;>
    simp only [dispatchIncoming, postMsg, handleReply] <;> split <;> (try split) <;> rfl

theorem dispatchIncoming_version (s : RPCState) (p : PacketC) :
    ((dispatchIncoming s p).1).remoteProtocolVersion = s.remoteProtocolVersion := by
  rcases p with ⟨msg, c⟩
  rcases msg with ⟨id, m, disc, params⟩ | ⟨id, result, error⟩ <;>
    simp only [dispatchIncoming, postMsg, handleReply] <;> split <;> (try split) <;> rfl

theorem dispatchIncoming_exposed (s : RPCState) (p : PacketC) :
    ((dispatchIncoming s p).1).exposed = s.exposed := by
  rcases p with ⟨msg, c⟩
  rcases msg with ⟨id, m, disc, params⟩ | ⟨id, result, error⟩ <;>
    simp only [dispatchIncoming, postMsg, handleReply] <;> split <;> (try split) <;> rfl

theorem dispatchIncoming_attached (s : RPCState) (p : PacketC) :
    ((dispatchIncoming s p).1).attached = s.attached := by
  rcases p with ⟨msg, c⟩
  rcases msg with ⟨id, m, disc, params⟩ | ⟨id, result, error⟩ <;>
    simp only [dispatchIncoming, postMsg, handleReply] <;> split <;> (try split) <;> rfl

theorem dispatchIncoming_last (s : RPCState) (p : PacketC) :
    ((dispatchIncoming s p).1).lastSequentialCall = p.counter := by
  rcases p with ⟨msg, c⟩
  rcases msg with ⟨id, m, disc, params⟩ | ⟨id, result, error⟩ <;>
    simp only [dispatchIncoming, postMsg, handleReply] <;> split <;> (try split) <;> rfl

theorem dispatchIncoming_recv (s : RPCState) (p : PacketC) :
    Out.recv p ∈ (dispatchIncoming s p).2 := by
  rcases p with ⟨msg, c⟩
  rcases msg with ⟨id, m, disc, params⟩ | ⟨id, result, error⟩ <;>
    simp only [dispatchIncoming, postMsg, handleReply] <;> split <;> (try split) <;> simp

theorem replayQueueF_of_le : ∀ (fuel : Nat) (s : RPCState),
    s.remoteCallQueue.length ≤ fuel →
    replayQueueF fuel s = replayQueueF s.remoteCallQueue.length s := by
  intro fuel
  induction fuel with
  | zero =>
    intro s h
    have h0 : s.remoteCallQueue.length = 0 := by omega
    rw [h0]
  | succ fuel ih =>
    intro s h
    rw [replayQueueF]
    split
    · rename_i h'
      rw [h', List.length_nil, replayQueueF]
    · rename_i next rest h'
      rw [h', List.length_cons, replayQueueF, h']
      dsimp only
      have hq : ((dispatchIncoming { s with remoteCallQueue := rest } next).1).remoteCallQueue.length = rest.length := by
        rw [dispatchIncoming_queue]
      have hrest : rest.length ≤ fuel := by
        rw [h'] at h
        simp only [List.length_cons] at h
        omega
      by_cases hcond : next.counter > s.lastSequentialCall + 1
      · rw [if_pos hcond, if_pos hcond]
      · rw [if_neg hcond, if_neg hcond]
        rw [ih _ (by rw [hq]; exact hrest), hq]

theorem replayQueue_eq_nil (s : RPCState) (h : s.remoteCallQueue = []) :
    replayQueue s = (s, []) := by
  rw [replayQueue, h, List.length_nil, replayQueueF]

theorem replayQueue_eq_stop (s : RPCState) (next : PacketC) (rest : List PacketC)
    (h : s.remoteCallQueue = next :: rest)
    (hgt : next.counter > s.lastSequentialCall + 1) :
    replayQueue s = (s, []) := by
  rw [replayQueue, h, List.length_cons, replayQueueF, h]
  simp [hgt]

theorem replayQueue_eq_step (s : RPCState) (next : PacketC) (rest : List PacketC)
    (h : s.remoteCallQueue = next :: rest)
    (hle : ¬next.counter > s.lastSequentialCall + 1) :
    replayQueue s =
      ((replayQueue (dispatchIncoming { s with remoteCallQueue := rest } next).1).1,
        (dispatchIncoming { s with remoteCallQueue := rest } next).2 ++
          (replayQueue (dispatchIncoming { s with remoteCallQueue := rest } next).1).2) := by
  rw [replayQueue, h, List.length_cons, replayQueueF, h]
  dsimp only
  rw [if_neg hle, replayQueue]
  have hq : ((dispatchIncoming { s with remoteCallQueue := rest } next).1).remoteCallQueue.length =
      rest.length := by
    rw [dispatchIncoming_queue]
  rw [hq]

theorem replayQueueF_version : ∀ (fuel : Nat) (s : RPCState),
    (replayQueueF fuel s).1.remoteProtocolVersion = s.remoteProtocolVersion := by
  intro fuel
  induction fuel with
  | zero => intro s; rfl
  | succ fuel ih =>
    intro s
    rw [replayQueueF]
    split
    · rfl
    · split
      · rfl
      · rw [ih, dispatchIncoming_version]

theorem replayQueue_version (s : RPCState) :
    (replayQueue s).1.remoteProtocolVersion = s.remoteProtocolVersion :=
  replayQueueF_version _ s

theorem replayQueueF_exposedField : ∀ (fuel : Nat) (s : RPCState),
    (replayQueueF fuel s).1.exposed = s.exposed := by
  intro fuel
  induction fuel with
  | zero => intro s; rfl
  | succ fuel ih =>
    intro s
    rw [replayQueueF]
    split
    · rfl
    · split
      · rfl
      · rw [ih, dispatchIncoming_exposed]

theorem replayQueue_exposedField (s : RPCState) :
    (replayQueue s).1.exposed = s.exposed :=
  replayQueueF_exposedField _ s

theorem replayQueueF_attached : ∀ (fuel : Nat) (s : RPCState),
    (replayQueueF fuel s).1.attached = s.attached := by
  intro fuel
  induction fuel with
  | zero => intro s; rfl
  | succ fuel ih =>
    intro s
    rw [replayQueueF]
    split
    · rfl
    · split
      · rfl
      · rw [ih, dispatchIncoming_attached]

theorem replayQueue_attached (s : RPCState) :
    (replayQueue s).1.attached = s.attached :=
  replayQueueF_attached _ s

theorem handleReadyReset_method (s : RPCState) (id : Nat) (m' : String) (d : Bool)
    (pv : ParamsV) (c : Int) (hm : m' ≠ "ready") :
    handleReadyReset s ⟨RPCMsg.method id m' d pv, c⟩ = s := by
  simp [handleReadyReset, hm]

theorem handleReadyReset_reply (s : RPCState) (id : Nat) (r : JVal) (e : Option ErrObj)
    (c : Int) : handleReadyReset s ⟨RPCMsg.reply id r e, c⟩ = s := rfl

theorem handleReadyReset_ready (s : RPCState) (id : Nat) (d : Bool) (pv : ParamsV) (c : Int) :
    handleReadyReset s ⟨RPCMsg.method id "ready" d pv, c⟩ =
      { s with lastSequentialCall := c - 1,
               remoteProtocolVersion := pv.protocolVersion,
               callCounter := 0 } := by
  simp [handleReadyReset]

theorem listener_valid_method (s : RPCState) (id : Nat) (m' : String) (d : Bool)
    (pv : ParamsV) (c : Int) :
    listener s (Inbound.data (rawOfMethod id m' d pv c)) =
      Except.ok (processPacket s ⟨RPCMsg.method id m' d pv, c⟩) := by
  simp [listener, rawOfMethod, isRPCMessage, toPacket]

theorem listener_valid_reply (s : RPCState) (id : Nat) (r : JVal) (e : Option ErrObj)
    (c : Int) :
    listener s (Inbound.data (rawOfReply id r e c)) =
      Except.ok (processPacket s ⟨RPCMsg.reply id r e, c⟩) := by
  simp [listener, rawOfReply, isRPCMessage, toPacket]

theorem chain_take (c : Nat) (q : List Nat) (hq : List.Sorted (· < ·) q)
    (hgt : ∀ x ∈ q, c < x) :
    q.take (chain c q) = List.range' (c + 1) (chain c q) := by
  induction q generalizing c with
  | nil => simp [chain]
  | cons x xs ih =>
    rw [List.sorted_cons] at hq
    by_cases hx : x = c + 1
    · subst hx
      rw [chain, if_pos rfl, List.take_succ_cons, List.range'_succ]
      rw [ih (c + 1) hq.2 (fun y hy => hq.1 y hy)]
    · rw [chain, if_neg hx]
      simp

theorem chain_succ_not_mem (c : Nat) (q : List Nat) (hq : List.Sorted (· < ·) q)
    (hgt : ∀ x ∈ q, c < x) :
    c + chain c q + 1 ∉ q := by
  induction q generalizing c with
  | nil => simp
  | cons x xs ih =>
    rw [List.sorted_cons] at hq
    by_cases hx : x = c + 1
    · subst hx
      rw [chain, if_pos rfl]
      intro hmem
      rcases List.mem_cons.mp hmem with h1 | h1
      · omega
      · have h2 := ih (c + 1) hq.2 (fun y hy => hq.1 y hy)
        have h3 : c + 1 + chain (c + 1) xs + 1 = c + (chain (c + 1) xs + 1) + 1 := by omega
        rw [h3] at h2
        exact h2 h1
    · rw [chain, if_neg hx]
      intro hmem
      rcases List.mem_cons.mp hmem with h1 | h1
      · have := hgt x (List.mem_cons_self x xs)
        omega
      · have hx1 := hgt x (List.mem_cons_self x xs)
        have := hq.1 _ h1
        omega

theorem chain_drop_gt (c : Nat) (q : List Nat) (hq : List.Sorted (· < ·) q)
    (hgt : ∀ x ∈ q, c < x) :
    ∀ x ∈ q.drop (chain c q), c + chain c q + 1 < x := by
  induction q generalizing c with
  | nil => simp
  | cons x xs ih =>
    rw [List.sorted_cons] at hq
    by_cases hx : x = c + 1
    · subst hx
      rw [chain, if_pos rfl, List.drop_succ_cons]
      intro y hy
      have := ih (c + 1) hq.2 (fun z hz => hq.1 z hz) y hy
      omega
    · rw [chain, if_neg hx]
      intro y hy
      rw [List.drop_zero] at hy
      have hx1 := hgt x (List.mem_cons_self x xs)
      rcases List.mem_cons.mp hy with h1 | h1
      · omega
      · have := hq.1 _ h1
        omega

theorem mem_insertNat (j : Nat) (q : List Nat) (x : Nat) :
    x ∈ insertNat j q ↔ x = j ∨ x ∈ q := by
  induction q with
  | nil => simp [insertNat]
  | cons y ys ih =>
    rw [insertNat]
    split
    · simp [List.mem_cons]
    · simp only [List.mem_cons, ih]
      tauto

theorem sorted_insertNat (j : Nat) (q : List Nat) (hq : List.Sorted (· < ·) q)
    (hj : j ∉ q) : List.Sorted (· < ·) (insertNat j q) := by
  induction q with
  | nil => simp [insertNat]
  | cons y ys ih =>
    rw [List.sorted_cons] at hq
    rw [insertNat]
    split
    · rename_i hyj
      rw [List.sorted_cons]
      constructor
      · intro b hb
        rcases List.mem_cons.mp hb with h1 | h1
        · omega
        · have := hq.1 _ h1
          omega
      · rw [List.sorted_cons]
        exact ⟨hq.1, hq.2⟩
    · rename_i hyj
      have hjy : y < j := by
        have : j ≠ y := by
          intro h
          exact hj (h ▸ List.mem_cons_self y ys)
        omega
      rw [List.sorted_cons]
      constructor
      · intro b hb
        rcases (mem_insertNat j ys b).mp hb with h1 | h1
        · omega
        · exact hq.1 _ h1
      · exact ih hq.2 (fun h => hj (List.mem_cons_of_mem y h))

theorem Scenario.pkt_counter (sc : Scenario) (i : Nat) : (sc.pkt i).counter = (i : Int) := rfl

theorem insertQueue_map_pkt (sc : Scenario) (j : Nat) (q : List Nat) :
    insertQueue (sc.pkt j) (q.map sc.pkt) = (insertNat j q).map sc.pkt := by
  induction q with
  | nil => rfl
  | cons x xs ih =>
    rw [List.map_cons, insertQueue, insertNat]
    simp only [Scenario.pkt_counter, gt_iff_lt, Nat.cast_lt]
    by_cases hxj : j < x
    · rw [if_pos hxj, if_pos hxj]
      simp
    · rw [if_neg hxj, if_neg hxj, ih, List.map_cons]

theorem dispatchIncoming_pkt (sc : Scenario) (s : RPCState)
    (hexp : s.exposed.count sc.m = 1) (i : Nat) :
    dispatchIncoming s (sc.pkt i) =
      ({ s with lastSequentialCall := (i : Int) },
        [Out.recv (sc.pkt i), sc.invokeOf i]) := by
  simp [dispatchIncoming, Scenario.pkt, Scenario.invokeOf, hexp]

theorem replayQueue_drain (sc : Scenario) (q : List Nat) :
    ∀ (s : RPCState) (c : Nat),
      s.exposed.count sc.m = 1 →
      List.Sorted (· < ·) q →
      (∀ x ∈ q, c < x) →
      s.remoteCallQueue = q.map sc.pkt →
      s.lastSequentialCall = (c : Int) →
      replayQueue s =
        ({ s with lastSequentialCall := ((c + chain c q : Nat) : Int),
                  remoteCallQueue := (q.drop (chain c q)).map sc.pkt },
          sc.drainOuts (c + 1) (chain c q)) := by
  induction q with
  | nil =>
    intro s c hexp hq hgt hqq hlast
    rw [replayQueue_eq_nil s (by simp [hqq])]
    rcases s with ⟨ic, cs, cc, q0, lc, ver, ex, att⟩
    simp_all [chain, Scenario.drainOuts]
  | cons x xs ih =>
    intro s c hexp hq hgt hqq hlast
    rw [List.sorted_cons] at hq
    by_cases hx : x = c + 1
    · subst hx
      have hcons : s.remoteCallQueue = sc.pkt (c + 1) :: xs.map sc.pkt := by
        simp [hqq]
      have hcond : ¬(sc.pkt (c + 1)).counter > s.lastSequentialCall + 1 := by
        rw [Scenario.pkt_counter, hlast]
        push_cast
        omega
      rw [replayQueue_eq_step s _ _ hcons hcond]
      rw [dispatchIncoming_pkt sc _ (by simpa using hexp) (c + 1)]
      rw [ih _ (c + 1) (by simpa using hexp) hq.2 (fun y hy => hq.1 y hy) (by simp) (by simp)]
      rw [chain, if_pos rfl, List.drop_succ_cons, Scenario.drainOuts]
      rcases s with ⟨ic, cs, cc, q0, lc, ver, ex, att⟩
      simp only [Prod.mk.injEq, RPCState.mk.injEq, List.cons_append, List.nil_append,
        true_and, and_true]
      push_cast
      ring_nf
    · have hxge : c + 2 ≤ x := by
        have := hgt x (List.mem_cons_self x xs)
        omega
      have hcons : s.remoteCallQueue = sc.pkt x :: xs.map sc.pkt := by
        simp [hqq]
      have hcond : (sc.pkt x).counter > s.lastSequentialCall + 1 := by
        rw [Scenario.pkt_counter, hlast]
        omega
      rw [replayQueue_eq_stop s _ _ hcons hcond]
      rw [chain, if_neg hx]
      rcases s with ⟨ic, cs, cc, q0, lc, ver, ex, att⟩
      simp_all [Scenario.drainOuts]

theorem isInvoke_invokeOf (sc : Scenario) (i : Nat) : isInvoke (sc.invokeOf i) = true := rfl

theorem isInvoke_recv (p : PacketC) : isInvoke (Out.recv p) = false := rfl

theorem drainOuts_filter (sc : Scenario) (n : Nat) :
    ∀ a, (sc.drainOuts a n).filter isInvoke = (List.range' a n).map sc.invokeOf := by
  induction n with
  | zero => intro a; rfl
  | succ n ih =>
    intro a
    rw [Scenario.drainOuts, List.range'_succ a n 1, List.map_cons,
      List.filter_cons, List.filter_cons, isInvoke_recv, isInvoke_invokeOf]
    simp only [Bool.false_eq_true, if_false, if_true, ih (a + 1)]

theorem handleReadyReset_pkt (sc : Scenario) (s : RPCState) (hm : sc.m ≠ "ready") (i : Nat) :
    handleReadyReset s (sc.pkt i) = s := by
  simp [Scenario.pkt, handleReadyReset, hm]

theorem listener_rawEv (sc : Scenario) (s : RPCState) (i : Nat) :
    listener s (sc.rawEv i) = Except.ok (processPacket s (sc.pkt i)) :=
  listener_valid_method s (sc.ids i) sc.m (sc.disc i) (sc.prm i) (i : Int)

theorem processPacket_step_dispatch (sc : Scenario) (hm : sc.m ≠ "ready")
    (ic : Nat) (cs : List Nat) (cc : Nat) (ver : Option String) (ex : List String)
    (att : Bool) (hexp : ex.count sc.m = 1)
    (k : Nat) (q : List Nat) (hq : List.Sorted (· < ·) q) (hgt : ∀ x ∈ q, k < x) :
    processPacket ⟨ic, cs, cc, q.map sc.pkt, (k : Int) - 1, ver, ex, att⟩ (sc.pkt k) =
      (⟨ic, cs, cc, (q.drop (chain k q)).map sc.pkt, ((k + chain k q : Nat) : Int),
        ver, ex, att⟩,
        Out.recv (sc.pkt k) :: sc.invokeOf k :: sc.drainOuts (k + 1) (chain k q)) := by
  unfold processPacket
  rw [handleReadyReset_pkt sc _ hm]
  rw [if_pos (by rw [Scenario.pkt_counter]; dsimp only; omega)]
  rw [dispatchIncoming_pkt sc _ (by dsimp only; exact hexp) k]
  dsimp only
  rw [replayQueue_drain sc q _ k (by dsimp only; exact hexp) hq hgt (by dsimp only) rfl]
  dsimp only
  rfl

theorem processPacket_step_insert (sc : Scenario) (hm : sc.m ≠ "ready")
    (ic : Nat) (cs : List Nat) (cc : Nat) (ver : Option String) (ex : List String)
    (att : Bool) (k j : Nat) (hkj : k < j) (q : List Nat) :
    processPacket ⟨ic, cs, cc, q.map sc.pkt, (k : Int) - 1, ver, ex, att⟩ (sc.pkt j) =
      (⟨ic, cs, cc, (insertNat j q).map sc.pkt, (k : Int) - 1, ver, ex, att⟩, []) := by
  unfold processPacket
  rw [handleReadyReset_pkt sc _ hm]
  rw [if_neg (by rw [Scenario.pkt_counter]; dsimp only; omega)]
  dsimp only
  rw [insertQueue_map_pkt]

theorem runInbound_perm_aux (sc : Scenario) (hm : sc.m ≠ "ready")
    (ic : Nat) (cs : List Nat) (cc : Nat) (ver : Option String) (ex : List String)
    (hexp : ex.count sc.m = 1) :
    ∀ (todo done q : List Nat) (k : Nat),
      (done ++ todo).Nodup →
      (∀ i, i < k → i ∈ done) →
      k ∉ done →
      List.Sorted (· < ·) q →
      (∀ x, x ∈ q ↔ (x ∈ done ∧ k < x)) →
      ∃ (k' : Nat) (q' : List Nat) (outs : List Out),
        k ≤ k' ∧
        (∀ i, i < k' → i ∈ done ++ todo) ∧
        k' ∉ done ++ todo ∧
        List.Sorted (· < ·) q' ∧
        (∀ x, x ∈ q' ↔ (x ∈ done ++ todo ∧ k' < x)) ∧
        runInbound ⟨ic, cs, cc, q.map sc.pkt, (k : Int) - 1, ver, ex, true⟩
            (todo.map sc.rawEv) =
          Except.ok (⟨ic, cs, cc, q'.map sc.pkt, (k' : Int) - 1, ver, ex, true⟩, outs) ∧
        outs.filter isInvoke = (List.range' k (k' - k)).map sc.invokeOf := by
  intro todo
  induction todo with
  | nil =>
    intro done q k hnd hk hkn hq hqm
    refine ⟨k, q, [], le_refl k, ?_, ?_, hq, ?_, ?_, ?_⟩
    · simpa using hk
    · simpa using hkn
    · simpa using hqm
    · simp [runInbound]
    · simp
  | cons j rest ih =>
    intro done q k hnd hk hkn hq hqm
    have hjdone : j ∉ done := fun hj =>
      (List.disjoint_of_nodup_append hnd) hj (List.mem_cons_self j rest)
    have hjrest : j ∉ rest := by
      have h2 := (List.nodup_append.mp hnd).2.1
      exact (List.nodup_cons.mp h2).1
    have hjk : k ≤ j := by
      by_contra hcon
      push_neg at hcon
      exact hjdone (hk j hcon)
    have hnd1 : ((done ++ [j]) ++ rest).Nodup := by
      rw [List.append_assoc]
      simpa using hnd
    have hgtq : ∀ x ∈ q, k < x := fun x hx => ((hqm x).mp hx).2
    by_cases hjeq : j = k
    · subst hjeq
      -- the arriving packet carries the expected counter: dispatch and drain
      have hdisp := processPacket_step_dispatch sc hm ic cs cc ver ex true hexp j q hq hgtq
      -- invariant for the extended processed set
      have htake : q.take (chain j q) = List.range' (j + 1) (chain j q) :=
        chain_take j q hq hgtq
      have hk1 : ∀ i, i < j + chain j q + 1 → i ∈ done ++ [j] := by
        intro i hi
        rcases Nat.lt_or_ge i j with h1 | h1
        · exact List.mem_append_left _ (hk i h1)
        · rcases Nat.eq_or_lt_of_le h1 with h2 | h2
          · exact List.mem_append_right _ (by simp [h2.symm])
          · have hiq : i ∈ q.take (chain j q) := by
              rw [htake, List.mem_range'_1]
              omega
            have := ((hqm i).mp (List.mem_of_mem_take hiq)).1
            exact List.mem_append_left _ this
      have hkn1 : j + chain j q + 1 ∉ done ++ [j] := by
        intro hmem
        rcases List.mem_append.mp hmem with h1 | h1
        · have : j + chain j q + 1 ∈ q := (hqm _).mpr ⟨h1, by omega⟩
          exact chain_succ_not_mem j q hq hgtq this
        · simp at h1
          omega
      have hq1 : List.Sorted (· < ·) (q.drop (chain j q)) :=
        hq.sublist (List.drop_sublist (chain j q) q)
      have hqm1 : ∀ x, x ∈ q.drop (chain j q) ↔
          (x ∈ done ++ [j] ∧ j + chain j q + 1 < x) := by
        intro x
        constructor
        · intro hx
          have hxq : x ∈ q := List.mem_of_mem_drop hx
          refine ⟨List.mem_append_left _ ((hqm x).mp hxq).1, ?_⟩
          exact chain_drop_gt j q hq hgtq x hx
        · rintro ⟨hxd, hxgt⟩
          have hxdone : x ∈ done := by
            rcases List.mem_append.mp hxd with h1 | h1
            · exact h1
            · simp at h1
              omega
          have hxq : x ∈ q := (hqm x).mpr ⟨hxdone, by omega⟩
          have hsplit : x ∈ q.take (chain j q) ∨ x ∈ q.drop (chain j q) := by
            rw [← List.mem_append, List.take_append_drop]
            exact hxq
          rcases hsplit with h1 | h1
          · rw [htake, List.mem_range'_1] at h1
            omega
          · exact h1
      obtain ⟨k', q', outs', hkk', hmem', hnmem', hsort', hqmem', hrun', hfil'⟩ :=
        ih (done ++ [j]) (q.drop (chain j q)) (j + chain j q + 1) hnd1 hk1 hkn1 hq1 hqm1
      have hcast : ((j + chain j q : Nat) : Int) = ((j + chain j q + 1 : Nat) : Int) - 1 := by
        push_cast
        ring
      refine ⟨k', q',
        (Out.recv (sc.pkt j) :: sc.invokeOf j :: sc.drainOuts (j + 1) (chain j q)) ++ outs',
        by omega, ?_, ?_, hsort', ?_, ?_, ?_⟩
      · intro i hi
        have := hmem' i hi
        rw [List.append_assoc] at this
        simpa using this
      · intro hmem
        refine hnmem' ?_
        rw [List.append_assoc]
        simpa using hmem
      · intro x
        rw [hqmem' x, List.append_assoc]
        simp
      · rw [List.map_cons, runInbound]
        rw [deliver, if_pos rfl, listener_rawEv, hdisp]
        dsimp only
        rw [hcast, hrun']
      · rw [List.filter_append, List.filter_cons, List.filter_cons,
          isInvoke_recv, isInvoke_invokeOf]
        simp only [Bool.false_eq_true, if_false, if_true, drainOuts_filter, hfil']
        have hr1 : sc.invokeOf j :: (List.range' (j + 1) (chain j q)).map sc.invokeOf =
            (List.range' j (chain j q + 1)).map sc.invokeOf := by
          rw [List.range'_succ j (chain j q) 1, List.map_cons]
        rw [hr1, ← List.map_append]
        have hr2 : List.range' j (chain j q + 1) ++
              List.range' (j + chain j q + 1) (k' - (j + chain j q + 1)) =
            List.range' j (k' - j) := by
          have h3 := List.range'_append j (chain j q + 1) (k' - (j + chain j q + 1)) 1
          simp only [Nat.one_mul, Nat.mul_one] at h3
          rw [show j + (chain j q + 1) = j + chain j q + 1 by omega] at h3
          rw [show k' - (j + chain j q + 1) + (chain j q + 1) = k' - j by omega] at h3
          exact h3
        rw [hr2]
    · have hjk2 : k < j := by omega
      have hins := processPacket_step_insert sc hm ic cs cc ver ex true k j hjk2 q
      have hjq : j ∉ q := fun hj => hjdone ((hqm j).mp hj).1
      have hk1 : ∀ i, i < k → i ∈ done ++ [j] :=
        fun i hi => List.mem_append_left _ (hk i hi)
      have hkn1 : k ∉ done ++ [j] := by
        intro hmem
        rcases List.mem_append.mp hmem with h1 | h1
        · exact hkn h1
        · simp at h1
          omega
      have hq1 : List.Sorted (· < ·) (insertNat j q) := sorted_insertNat j q hq hjq
      have hqm1 : ∀ x, x ∈ insertNat j q ↔ (x ∈ done ++ [j] ∧ k < x) := by
        intro x
        rw [mem_insertNat]
        constructor
        · rintro (h1 | h1)
          · subst h1
            exact ⟨List.mem_append_right _ (by simp), hjk2⟩
          · obtain ⟨hd, hkx⟩ := (hqm x).mp h1
            exact ⟨List.mem_append_left _ hd, hkx⟩
        · rintro ⟨hxd, hkx⟩
          rcases List.mem_append.mp hxd with h1 | h1
          · exact Or.inr ((hqm x).mpr ⟨h1, hkx⟩)
          · simp at h1
            exact Or.inl h1
      obtain ⟨k', q', outs', hkk', hmem', hnmem', hsort', hqmem', hrun', hfil'⟩ :=
        ih (done ++ [j]) (insertNat j q) k hnd1 hk1 hkn1 hq1 hqm1
      refine ⟨k', q', outs', hkk', ?_, ?_, hsort', ?_, ?_, hfil'⟩
      · intro i hi
        have := hmem' i hi
        rw [List.append_assoc] at this
        simpa using this
      · intro hmem
        refine hnmem' ?_
        rw [List.append_assoc]
        simpa using hmem
      · intro x
        rw [hqmem' x, List.append_assoc]
        simp
      · rw [List.map_cons, runInbound]
        rw [deliver, if_pos rfl, listener_rawEv, hins]
        dsimp only
        rw [hrun']
        simp

end Rpc

/-- C1: for every set of N valid Invocations carrying counters 0..N-1 and the
matching serviceID, delivered to the Engine's message listener in an arbitrary
permutation starting from the initial state (`lastSequentialCall = -1`, empty
reorder buffer), the exposed handler for their method is invoked exactly once
per message, in strictly increasing counter order 0,1,...,N-1, with no gaps or
repeats: the run succeeds and its handler-invocation actions are exactly the
invocations for counters 0..N-1 in that order. -/
theorem C1_ordered_dispatch (sc : Rpc.Scenario) (s0 : Rpc.RPCState) (N : Nat)
    (perm : List Nat) (hatt : s0.attached = true) (hlast : s0.lastSequentialCall = -1)
    (hqe : s0.remoteCallQueue = []) (hexp : s0.exposed.count sc.m = 1)
    (hm : sc.m ≠ "ready") (hperm : perm.Perm (List.range N)) :
    ∃ (st : Rpc.RPCState) (outs : List Rpc.Out),
      Rpc.runInbound s0 (perm.map sc.rawEv) = Except.ok (st, outs) ∧
      outs.filter Rpc.isInvoke = (List.range N).map sc.invokeOf := by
  rcases s0 with ⟨ic, cs, cc, q0, lc, ver, ex, att⟩
  simp only at hatt hlast hqe hexp
  subst hatt hlast hqe
  obtain ⟨k', q', outs, hk0, hmem, hnmem, hsort, hqmem, hrun, hfil⟩ :=
    Rpc.runInbound_perm_aux sc hm ic cs cc ver ex hexp perm [] [] 0
      (by simpa using (hperm.nodup_iff).mpr (List.nodup_range N))
      (by omega)
      (by simp)
      (by simp)
      (by simp)
  have hprm : ∀ x, x ∈ perm ↔ x < N := fun x => hperm.mem_iff.trans List.mem_range
  have hkN : k' = N := by
    have hnp : k' ∉ perm := by simpa using hnmem
    have h1 : ¬k' < N := fun h => hnp ((hprm k').mpr h)
    have h2 : ¬N < k' := by
      intro h
      have := (hprm N).mp (by simpa using hmem N h)
      omega
    omega
  subst hkN
  have hq' : q' = [] := by
    apply List.eq_nil_iff_forall_not_mem.mpr
    intro x hx
    have h1 := (hqmem x).mp hx
    have := (hprm x).mp (by simpa using h1.1)
    omega
  subst hq'
  have hz : ((0 : Nat) : Int) - 1 = (-1 : Int) := by norm_num
  rw [hz] at hrun
  refine ⟨⟨ic, cs, cc, [], (k' : Int) - 1, ver, ex, true⟩, outs, ?_, ?_⟩
  · simpa using hrun
  · rw [hfil, List.range_eq_range' k']
    norm_num

/-- Witness for C1: four Invocations of method "foo" with counters 0..3
delivered in the order 3, 1, 0, 2 are dispatched to the handler in counter
order 0, 1, 2, 3. -/
theorem C1_ordered_dispatch_witness :
    ∃ (st : Rpc.RPCState) (outs : List Rpc.Out),
      Rpc.runInbound { exposed := ["foo"] }
          ([3, 1, 0, 2].map (Rpc.Scenario.mk "foo" (fun i => i) (fun _ => false)
            (fun _ => {})).rawEv) =
        Except.ok (st, outs) ∧
      outs.filter Rpc.isInvoke =
        (List.range 4).map (Rpc.Scenario.mk "foo" (fun i => i) (fun _ => false)
          (fun _ => {})).invokeOf :=
  C1_ordered_dispatch (Rpc.Scenario.mk "foo" (fun i => i) (fun _ => false) (fun _ => {}))
    { exposed := ["foo"] } 4 [3, 1, 0, 2] rfl rfl rfl (by decide) (by decide) (by decide)

namespace Rpc

theorem handleReadyReset_queue (s : RPCState) (p : PacketC) :
    (handleReadyReset s p).remoteCallQueue = s.remoteCallQueue := by
  rcases p with ⟨msg, c⟩
  rcases msg with ⟨id, m, d, pv⟩ | ⟨id, r, e⟩
  · by_cases hm : m = "ready"
    · subst hm
      rw [handleReadyReset_ready]
    · rw [handleReadyReset_method s id m d pv c hm]
  · rfl

theorem handleReadyReset_calls (s : RPCState) (p : PacketC) :
    (handleReadyReset s p).calls = s.calls := by
  rcases p with ⟨msg, c⟩
  rcases msg with ⟨id, m, d, pv⟩ | ⟨id, r, e⟩
  · by_cases hm : m = "ready"
    · subst hm
      rw [handleReadyReset_ready]
    · rw [handleReadyReset_method s id m d pv c hm]
  · rfl

theorem handleReadyReset_of_insert (s : RPCState) (p : PacketC)
    (h : ¬p.counter ≤ (handleReadyReset s p).lastSequentialCall + 1) :
    handleReadyReset s p = s := by
  rcases p with ⟨msg, c⟩
  rcases msg with ⟨id, m, d, pv⟩ | ⟨id, r, e⟩
  · by_cases hm : m = "ready"
    · subst hm
      rw [handleReadyReset_ready] at h
      dsimp only at h
      omega
    · rw [handleReadyReset_method s id m d pv c hm]
  · rfl

theorem insertQueue_mem (p : PacketC) (l : List PacketC) (x : PacketC) :
    x ∈ insertQueue p l ↔ x = p ∨ x ∈ l := by
  induction l with
  | nil => simp [insertQueue]
  | cons y ys ih =>
    rw [insertQueue]
    split
    · simp [List.mem_cons]
    · simp only [List.mem_cons, ih]
      tauto

theorem insertQueue_sorted (p : PacketC) (l : List PacketC)
    (hl : List.Sorted (fun a b : PacketC => a.counter ≤ b.counter) l) :
    List.Sorted (fun a b : PacketC => a.counter ≤ b.counter) (insertQueue p l) := by
  induction l with
  | nil => simp [insertQueue]
  | cons y ys ih =>
    rw [List.sorted_cons] at hl
    rw [insertQueue]
    split
    · rename_i hyp
      rw [List.sorted_cons]
      constructor
      · intro b hb
        rcases List.mem_cons.mp hb with h1 | h1
        · subst h1
          omega
        · have := hl.1 _ h1
          omega
      · rw [List.sorted_cons]
        exact hl
    · rename_i hyp
      rw [List.sorted_cons]
      constructor
      · intro b hb
        rcases (insertQueue_mem p ys b).mp hb with h1 | h1
        · subst h1
          omega
        · exact hl.1 _ h1
      · exact ih hl.2

theorem replayQueueF_inv : ∀ (fuel : Nat) (s : RPCState),
    s.remoteCallQueue.length ≤ fuel →
    List.Sorted (fun a b : PacketC => a.counter ≤ b.counter) s.remoteCallQueue →
      List.Sorted (fun a b : PacketC => a.counter ≤ b.counter)
          (replayQueueF fuel s).1.remoteCallQueue ∧
        (∀ p ∈ (replayQueueF fuel s).1.remoteCallQueue,
          (replayQueueF fuel s).1.lastSequentialCall + 1 < p.counter) ∧
        (∀ p ∈ s.remoteCallQueue,
          p ∈ (replayQueueF fuel s).1.remoteCallQueue ∨
            Out.recv p ∈ (replayQueueF fuel s).2) := by
  intro fuel
  induction fuel with
  | zero =>
    intro s hlen hs
    have h0 : s.remoteCallQueue = [] := List.length_eq_zero.mp (by omega)
    rw [replayQueueF]
    refine ⟨hs, ?_, ?_⟩ <;> simp [h0]
  | succ fuel ih =>
    intro s hlen hs
    rw [replayQueueF]
    split
    · rename_i h
      refine ⟨hs, ?_, ?_⟩ <;> simp [h]
    · rename_i next rest h
      split
      · rename_i hgt
        dsimp only
        refine ⟨hs, ?_, fun p hp => Or.inl hp⟩
        intro p hp
        rw [h] at hp
        rw [h, List.sorted_cons] at hs
        rcases List.mem_cons.mp hp with h1 | h1
        · subst h1
          omega
        · have := hs.1 _ h1
          omega
      · rename_i hle
        have hs' : List.Sorted (fun a b : PacketC => a.counter ≤ b.counter)
            ((dispatchIncoming { s with remoteCallQueue := rest } next).1).remoteCallQueue := by
          rw [dispatchIncoming_queue]
          rw [h, List.sorted_cons] at hs
          exact hs.2
        have hlen' : ((dispatchIncoming { s with remoteCallQueue := rest } next).1).remoteCallQueue.length ≤ fuel := by
          rw [dispatchIncoming_queue]
          rw [h] at hlen
          simp at hlen
          simpa using hlen
        obtain ⟨ih1, ih2, ih3⟩ := ih _ hlen' hs'
        refine ⟨ih1, ih2, ?_⟩
        intro p hp
        rw [h] at hp
        rcases List.mem_cons.mp hp with h1 | h1
        · subst h1
          exact Or.inr (List.mem_append_left _ (dispatchIncoming_recv _ p))
        · have h2 : p ∈ ((dispatchIncoming { s with remoteCallQueue := rest } next).1).remoteCallQueue := by
            rw [dispatchIncoming_queue]
            exact h1
          rcases ih3 p h2 with h3 | h3
          · exact Or.inl h3
          · exact Or.inr (List.mem_append_right _ h3)

theorem replayQueue_inv (s : RPCState) :
    List.Sorted (fun a b : PacketC => a.counter ≤ b.counter) s.remoteCallQueue →
      List.Sorted (fun a b : PacketC => a.counter ≤ b.counter)
          (replayQueue s).1.remoteCallQueue ∧
        (∀ p ∈ (replayQueue s).1.remoteCallQueue,
          (replayQueue s).1.lastSequentialCall + 1 < p.counter) ∧
        (∀ p ∈ s.remoteCallQueue,
          p ∈ (replayQueue s).1.remoteCallQueue ∨ Out.recv p ∈ (replayQueue s).2) :=
  replayQueueF_inv s.remoteCallQueue.length s (le_refl _)

end Rpc

/-- C7: after every completed invocation of the message listener, the reorder
buffer contains only messages whose counter is strictly greater than
`lastSequentialCall + 1`, is sorted in ascending counter order, and every
dispatchable prefix has been drained: each packet that was queued before the
call is either still queued afterwards or was dispatched (its `recv` action
appears in the listener's output) before the listener returned. -/
theorem C7_reorder_buffer_invariant (s : Rpc.RPCState) (ev : Rpc.Inbound)
    (s' : Rpc.RPCState) (outs : List Rpc.Out) (hinv : Rpc.QueueInv s)
    (hrun : Rpc.listener s ev = Except.ok (s', outs)) :
    Rpc.QueueInv s' ∧
      ∀ p ∈ s.remoteCallQueue, p ∈ s'.remoteCallQueue ∨ Rpc.Out.recv p ∈ outs := by
  obtain ⟨hsort, hbound⟩ := hinv
  rcases ev with _ | d
  · exact absurd hrun (by simp [Rpc.listener])
  · rw [Rpc.listener] at hrun
    split at hrun
    · injection hrun with h
      rw [Prod.mk.injEq] at h
      obtain ⟨rfl, rfl⟩ := h
      exact ⟨⟨hsort, hbound⟩, fun p hp => Or.inl hp⟩
    · injection hrun with h
      rw [Rpc.processPacket] at h
      split at h
      · rw [Prod.mk.injEq] at h
        obtain ⟨rfl, rfl⟩ := h
        have hq1 : List.Sorted (fun a b : Rpc.PacketC => a.counter ≤ b.counter)
            ((Rpc.dispatchIncoming (Rpc.handleReadyReset s (Rpc.toPacket d))
              (Rpc.toPacket d)).1).remoteCallQueue := by
          rw [Rpc.dispatchIncoming_queue, Rpc.handleReadyReset_queue]
          exact hsort
        obtain ⟨i1, i2, i3⟩ := Rpc.replayQueue_inv _ hq1
        refine ⟨⟨i1, i2⟩, ?_⟩
        intro pk hpk
        have hpk' : pk ∈ ((Rpc.dispatchIncoming (Rpc.handleReadyReset s (Rpc.toPacket d))
            (Rpc.toPacket d)).1).remoteCallQueue := by
          rw [Rpc.dispatchIncoming_queue, Rpc.handleReadyReset_queue]
          exact hpk
        rcases i3 pk hpk' with h3 | h3
        · exact Or.inl h3
        · exact Or.inr (List.mem_append_right _ h3)
      · rename_i hcond
        have hid : Rpc.handleReadyReset s (Rpc.toPacket d) = s :=
          Rpc.handleReadyReset_of_insert s _ hcond
        rw [hid] at h hcond
        rw [Prod.mk.injEq] at h
        obtain ⟨rfl, rfl⟩ := h
        refine ⟨⟨?_, ?_⟩, ?_⟩
        · exact Rpc.insertQueue_sorted _ _ hsort
        · intro pk hpk
          rcases (Rpc.insertQueue_mem _ _ pk).mp hpk with h1 | h1
          · subst h1
            dsimp only
            omega
          · dsimp only
            exact hbound pk h1
        · intro pk hpk
          exact Or.inl ((Rpc.insertQueue_mem _ _ pk).mpr (Or.inr hpk))

/-- Witness for C7: a state whose buffer holds the counter-3 packet with
`lastSequentialCall = 0` receives the counter-1 invocation of an unexposed
method; the listener dispatches it (answering with the 4003 reply), the
buffered packet stays queued, and the invariant still holds afterwards. -/
theorem C7_reorder_buffer_invariant_witness :
    Rpc.QueueInv { remoteCallQueue := [⟨Rpc.RPCMsg.method 5 "foo" false {}, 3⟩], lastSequentialCall := 0 } ∧
      (Rpc.QueueInv { callCounter := 1, remoteCallQueue := [⟨Rpc.RPCMsg.method 5 "foo" false {}, 3⟩], lastSequentialCall := 1 } ∧
        ∀ p ∈ ({ remoteCallQueue := [⟨Rpc.RPCMsg.method 5 "foo" false {}, 3⟩], lastSequentialCall := 0 } : Rpc.RPCState).remoteCallQueue,
          p ∈ ({ callCounter := 1, remoteCallQueue := [⟨Rpc.RPCMsg.method 5 "foo" false {}, 3⟩], lastSequentialCall := 1 } : Rpc.RPCState).remoteCallQueue ∨
            Rpc.Out.recv p ∈
              [Rpc.Out.recv ⟨Rpc.RPCMsg.method 9 "bar" false {}, 1⟩,
                Rpc.Out.post ⟨Rpc.RPCMsg.reply 9 Rpc.JVal.null
                  (some ⟨4003, "Unknown method name", none⟩), 0⟩]) := by
  have hinv : Rpc.QueueInv
      { remoteCallQueue := [⟨Rpc.RPCMsg.method 5 "foo" false {}, 3⟩],
        lastSequentialCall := 0 } := by
    refine ⟨by simp, ?_⟩
    intro p hp
    simp only [List.mem_singleton] at hp
    subst hp
    decide
  exact ⟨hinv,
    C7_reorder_buffer_invariant _ (Rpc.Inbound.data (Rpc.rawOfMethod 9 "bar" false {} 1))
      _ _ hinv rfl⟩

/-- C3 counterexample: the claim says that every time the Engine sends a
"ready" Invocation the outgoing counter is reset to 0 so that the "ready"
itself is stamped with sequence 0; but after construction (which leaves
`callCounter = 1`) a second "ready" call posts a packet stamped with
counter 1, not 0 — `call` never resets the outgoing counter. -/
theorem C3_counterexample :
    (Rpc.call (Rpc.construct "1.0").1 "ready" { protocolVersion := some "1.0" } false).2 =
      [Rpc.Out.emitEvent "sendMethod",
        Rpc.Out.post ⟨Rpc.RPCMsg.method 1 "ready" true { protocolVersion := some "1.0" }, 1⟩] ∧
      (1 : Int) ≠ 0 :=
  ⟨rfl, by decide⟩

/-- C3 (amended): the outgoing counter starts at 0, so the "ready" sent at
construction is stamped with sequence 0 and the constructor leaves
`callCounter = 1` (the next outbound message is stamped 1).  Sending a later
"ready" does not reset the counter — it is stamped with the current
`callCounter`.  The outgoing counter is reset to 0 only when a "ready"
invocation is received from the peer. -/
theorem C3_ready_counter (v : String) (s : Rpc.RPCState) (p : Rpc.ParamsV)
    (id : Nat) (d : Bool) (c : Int) :
    (Rpc.construct v).2 =
      [Rpc.Out.emitEvent "sendMethod",
        Rpc.Out.post ⟨Rpc.RPCMsg.method 0 "ready" true { protocolVersion := some v }, 0⟩] ∧
      (Rpc.construct v).1.callCounter = 1 ∧
      (Rpc.call s "ready" p false).2 =
        [Rpc.Out.emitEvent "sendMethod",
          Rpc.Out.post ⟨Rpc.RPCMsg.method s.idCounter "ready" true p, (s.callCounter : Int)⟩] ∧
      (Rpc.handleReadyReset s ⟨Rpc.RPCMsg.method id "ready" d p, c⟩).callCounter = 0 := by
  refine ⟨rfl, rfl, ?_, ?_⟩
  · simp [Rpc.call, Rpc.postMsg]
  · rw [Rpc.handleReadyReset_ready]

/-- C8: `destroy()` emits the "destroy" event and detaches the message
listener, changing nothing else: the resulting state equals the old one with
only `attached` cleared, the pending call table is untouched, and after
`destroy` every sequence of inbound deliveries is ignored — the state stays
fixed and no action (in particular no resolution or rejection of a pending
call) is ever produced. -/
theorem C8_destroy_detaches_only (s : Rpc.RPCState) :
    (Rpc.destroy s).1 = { s with attached := false } ∧
      (Rpc.destroy s).1.calls = s.calls ∧
      (Rpc.destroy s).2 = [Rpc.Out.emitEvent "destroy"] ∧
      ∀ evs : List Rpc.Inbound,
        Rpc.runInbound (Rpc.destroy s).1 evs = Except.ok ((Rpc.destroy s).1, []) := by
  refine ⟨rfl, rfl, rfl, ?_⟩
  intro evs
  induction evs with
  | nil => rfl
  | cons ev rest ih =>
    rw [Rpc.runInbound]
    have hdel : Rpc.deliver (Rpc.destroy s).1 ev = Except.ok ((Rpc.destroy s).1, []) := by
      rw [Rpc.deliver, if_neg]
      simp [Rpc.destroy]
    rw [hdel]
    dsimp only
    rw [ih]
    simp

/-- C5: `call(method, params, true)` registers a resolver in the pending call
table under a fresh monotonically allocated callID (assuming every pending id
is below `idCounter`, the new id is not yet in the table, the counter
advances by one and the id is appended); dispatching a Reply with that callID
and result R resolves the pending call with exactly R, while a Reply carrying
an error object rejects it with the `RPCError` built from that code, message
and path; in either case the table entry is removed. -/
theorem C5_call_correlation (s : Rpc.RPCState) (m' : String) (pv : Rpc.ParamsV)
    (hfresh : ∀ j ∈ s.calls, j < s.idCounter)
    (t : Rpc.RPCState) (id : Nat) (r : Rpc.JVal) (c : Int)
    (code : Int) (msg : String) (path : Option (List String))
    (hid : id ∈ t.calls) :
    ((Rpc.call s m' pv true).1.idCounter = s.idCounter + 1 ∧
      s.idCounter ∉ s.calls ∧
      (Rpc.call s m' pv true).1.calls = s.calls ++ [s.idCounter] ∧
      (Rpc.call s m' pv true).2 =
        [Rpc.Out.emitEvent "sendMethod",
          Rpc.Out.post ⟨Rpc.RPCMsg.method s.idCounter m' false pv, (s.callCounter : Int)⟩]) ∧
    Rpc.dispatchIncoming t ⟨Rpc.RPCMsg.reply id r none, c⟩ =
      ({ t with lastSequentialCall := c, calls := t.calls.erase id },
        [Rpc.Out.recv ⟨Rpc.RPCMsg.reply id r none, c⟩, Rpc.Out.resolveCall id r]) ∧
    Rpc.dispatchIncoming t ⟨Rpc.RPCMsg.reply id r (some ⟨code, msg, path⟩), c⟩ =
      ({ t with lastSequentialCall := c, calls := t.calls.erase id },
        [Rpc.Out.recv ⟨Rpc.RPCMsg.reply id r (some ⟨code, msg, path⟩), c⟩,
          Rpc.Out.rejectCall id ⟨code, msg, path⟩]) := by
  refine ⟨⟨?_, ?_, ?_, ?_⟩, ?_, ?_⟩
  · simp [Rpc.call, Rpc.postMsg]
  · intro hmem
    exact absurd (hfresh _ hmem) (lt_irrefl _)
  · simp [Rpc.call, Rpc.postMsg]
  · simp [Rpc.call, Rpc.postMsg]
  · rcases t with ⟨ic, cs, cc, q0, lc, ver, ex, att⟩
    simp only at hid
    simp [Rpc.dispatchIncoming, Rpc.handleReply, hid]
  · rcases t with ⟨ic, cs, cc, q0, lc, ver, ex, att⟩
    simp only at hid
    simp [Rpc.dispatchIncoming, Rpc.handleReply, Rpc.objToError, hid]

/-- Witness for C5: from an empty table `call` allocates id 0 and registers
it; on a table holding id 7, a result Reply resolves it with the value and an
error Reply rejects it with the corresponding `RPCError`, each removing the
entry. -/
theorem C5_call_correlation_witness :
    (∀ j ∈ ({} : Rpc.RPCState).calls, j < ({} : Rpc.RPCState).idCounter) ∧
    7 ∈ ({ calls := [7] } : Rpc.RPCState).calls ∧
    (((Rpc.call {} "m" {} true).1.idCounter = ({} : Rpc.RPCState).idCounter + 1 ∧
      ({} : Rpc.RPCState).idCounter ∉ ({} : Rpc.RPCState).calls ∧
      (Rpc.call {} "m" {} true).1.calls = ({} : Rpc.RPCState).calls ++ [({} : Rpc.RPCState).idCounter] ∧
      (Rpc.call {} "m" {} true).2 =
        [Rpc.Out.emitEvent "sendMethod",
          Rpc.Out.post ⟨Rpc.RPCMsg.method ({} : Rpc.RPCState).idCounter "m" false {}, (({} : Rpc.RPCState).callCounter : Int)⟩]) ∧
    Rpc.dispatchIncoming { calls := [7] } ⟨Rpc.RPCMsg.reply 7 (Rpc.JVal.num 42) none, 0⟩ =
      ({ ({ calls := [7] } : Rpc.RPCState) with lastSequentialCall := 0, calls := ([7] : List Nat).erase 7 },
        [Rpc.Out.recv ⟨Rpc.RPCMsg.reply 7 (Rpc.JVal.num 42) none, 0⟩, Rpc.Out.resolveCall 7 (Rpc.JVal.num 42)]) ∧
    Rpc.dispatchIncoming { calls := [7] } ⟨Rpc.RPCMsg.reply 7 (Rpc.JVal.num 42) (some ⟨4000, "err", none⟩), 0⟩ =
      ({ ({ calls := [7] } : Rpc.RPCState) with lastSequentialCall := 0, calls := ([7] : List Nat).erase 7 },
        [Rpc.Out.recv ⟨Rpc.RPCMsg.reply 7 (Rpc.JVal.num 42) (some ⟨4000, "err", none⟩), 0⟩,
          Rpc.Out.rejectCall 7 ⟨4000, "err", none⟩])) :=
  ⟨by simp, by simp,
    C5_call_correlation {} "m" {} (by simp) { calls := [7] } 7 (Rpc.JVal.num 42) 0
      4000 "err" none (by simp)⟩

/-- C6: dispatching an Invocation whose method has no exposed handler sends
back a Reply carrying the same callID and a structured error with code 4003;
on the caller's side, delivering that error Reply (in order, on an attached
engine with the call pending) rejects the corresponding pending call with
code 4003, and the channel keeps operating (the listener returns normally
and stays attached). -/
theorem C6_unknown_method (s : Rpc.RPCState) (id : Nat) (m' : String) (d : Bool)
    (pv : Rpc.ParamsV) (c : Int) (hm : m' ∉ s.exposed)
    (t : Rpc.RPCState) (c' : Int) (hid : id ∈ t.calls)
    (hc' : c' ≤ t.lastSequentialCall + 1) (hatt : t.attached = true) :
    Rpc.dispatchIncoming s ⟨Rpc.RPCMsg.method id m' d pv, c⟩ =
      ({ s with lastSequentialCall := c, callCounter := s.callCounter + 1 },
        [Rpc.Out.recv ⟨Rpc.RPCMsg.method id m' d pv, c⟩,
          Rpc.Out.post ⟨Rpc.RPCMsg.reply id Rpc.JVal.null
            (some ⟨4003, "Unknown method name", none⟩), (s.callCounter : Int)⟩]) ∧
    ∃ (st : Rpc.RPCState) (outs : List Rpc.Out),
      Rpc.deliver t (Rpc.Inbound.data (Rpc.rawOfReply id Rpc.JVal.null
          (some ⟨4003, "Unknown method name", none⟩) c')) = Except.ok (st, outs) ∧
      Rpc.Out.rejectCall id ⟨4003, "Unknown method name", none⟩ ∈ outs ∧
      st.attached = true := by
  constructor
  · rcases s with ⟨ic, cs, cc, q0, lc, ver, ex, att⟩
    simp only at hm
    simp [Rpc.dispatchIncoming, Rpc.postMsg, List.count_eq_zero_of_not_mem hm]
  · rw [Rpc.deliver, if_pos hatt, Rpc.listener_valid_reply]
    have hkey : Rpc.Out.rejectCall id ⟨4003, "Unknown method name", none⟩ ∈
        (Rpc.processPacket t ⟨Rpc.RPCMsg.reply id Rpc.JVal.null
          (some ⟨4003, "Unknown method name", none⟩), c'⟩).2 := by
      unfold Rpc.processPacket
      rw [Rpc.handleReadyReset_reply, if_pos (by exact hc')]
      dsimp only
      refine List.mem_append_left _ ?_
      rcases t with ⟨ic, cs, cc, q0, lc, ver, ex, att⟩
      simp only at hid
      simp [Rpc.dispatchIncoming, Rpc.handleReply, Rpc.objToError, hid]
    have hatt2 : (Rpc.processPacket t ⟨Rpc.RPCMsg.reply id Rpc.JVal.null
        (some ⟨4003, "Unknown method name", none⟩), c'⟩).1.attached = true := by
      unfold Rpc.processPacket
      rw [Rpc.handleReadyReset_reply, if_pos (by exact hc')]
      dsimp only
      rw [Rpc.replayQueue_attached, Rpc.dispatchIncoming_attached]
      exact hatt
    exact ⟨(Rpc.processPacket t ⟨Rpc.RPCMsg.reply id Rpc.JVal.null
        (some ⟨4003, "Unknown method name", none⟩), c'⟩).1,
      (Rpc.processPacket t ⟨Rpc.RPCMsg.reply id Rpc.JVal.null
        (some ⟨4003, "Unknown method name", none⟩), c'⟩).2, rfl, hkey, hatt2⟩

/-- Witness for C6: an engine with no handlers answers the invocation of
"nope" with a 4003 Reply, and an engine with call 3 pending rejects it with
code 4003 when that Reply arrives. -/
theorem C6_unknown_method_witness :
    "nope" ∉ ({} : Rpc.RPCState).exposed ∧
    3 ∈ ({ calls := [3] } : Rpc.RPCState).calls ∧
    ((0 : Int) ≤ ({ calls := [3] } : Rpc.RPCState).lastSequentialCall + 1) ∧
    (Rpc.dispatchIncoming {} ⟨Rpc.RPCMsg.method 3 "nope" false {}, 0⟩ =
      ({ ({} : Rpc.RPCState) with lastSequentialCall := 0, callCounter := ({} : Rpc.RPCState).callCounter + 1 },
        [Rpc.Out.recv ⟨Rpc.RPCMsg.method 3 "nope" false {}, 0⟩,
          Rpc.Out.post ⟨Rpc.RPCMsg.reply 3 Rpc.JVal.null
            (some ⟨4003, "Unknown method name", none⟩), (({} : Rpc.RPCState).callCounter : Int)⟩]) ∧
    ∃ (st : Rpc.RPCState) (outs : List Rpc.Out),
      Rpc.deliver { calls := [3] } (Rpc.Inbound.data (Rpc.rawOfReply 3 Rpc.JVal.null
          (some ⟨4003, "Unknown method name", none⟩) 0)) = Except.ok (st, outs) ∧
      Rpc.Out.rejectCall 3 ⟨4003, "Unknown method name", none⟩ ∈ outs ∧
      st.attached = true) :=
  ⟨by simp, by simp, by simp,
    C6_unknown_method {} 3 "nope" false {} 0 (by simp) { calls := [3] } 0
      (by simp) (by simp) rfl⟩

/-- C9: the unknown-method 4003 error Reply is sent even when the dispatched
Invocation is marked fire-and-forget (`discard = true`), since the discard
flag is only honoured inside a registered handler; in particular a peer's
"ready" announcement itself makes an engine with no exposed "ready" handler
post a 4003 error Reply — stamped with counter 0, because the "ready" branch
has just reset the outgoing counter. -/
theorem C9_discard_still_errors (s : Rpc.RPCState) (id : Nat) (m' : String)
    (pv : Rpc.ParamsV) (c : Int) (hm : m' ∉ s.exposed)
    (t : Rpc.RPCState) (idr : Nat) (pvr : Rpc.ParamsV) (cr : Int)
    (hr : "ready" ∉ t.exposed) (hattr : t.attached = true) :
    Rpc.dispatchIncoming s ⟨Rpc.RPCMsg.method id m' true pv, c⟩ =
      ({ s with lastSequentialCall := c, callCounter := s.callCounter + 1 },
        [Rpc.Out.recv ⟨Rpc.RPCMsg.method id m' true pv, c⟩,
          Rpc.Out.post ⟨Rpc.RPCMsg.reply id Rpc.JVal.null
            (some ⟨4003, "Unknown method name", none⟩), (s.callCounter : Int)⟩]) ∧
    ∃ (st : Rpc.RPCState) (outs : List Rpc.Out),
      Rpc.deliver t (Rpc.Inbound.data (Rpc.rawOfMethod idr "ready" true pvr cr)) =
        Except.ok (st, outs) ∧
      Rpc.Out.post ⟨Rpc.RPCMsg.reply idr Rpc.JVal.null
        (some ⟨4003, "Unknown method name", none⟩), 0⟩ ∈ outs := by
  constructor
  · rcases s with ⟨ic, cs, cc, q0, lc, ver, ex, att⟩
    simp only at hm
    simp [Rpc.dispatchIncoming, Rpc.postMsg, List.count_eq_zero_of_not_mem hm]
  · rw [Rpc.deliver, if_pos hattr, Rpc.listener_valid_method]
    have hkey : Rpc.Out.post ⟨Rpc.RPCMsg.reply idr Rpc.JVal.null
        (some ⟨4003, "Unknown method name", none⟩), 0⟩ ∈
        (Rpc.processPacket t ⟨Rpc.RPCMsg.method idr "ready" true pvr, cr⟩).2 := by
      unfold Rpc.processPacket
      rw [Rpc.handleReadyReset_ready, if_pos (by dsimp only; omega)]
      dsimp only
      refine List.mem_append_left _ ?_
      rcases t with ⟨ic, cs, cc, q0, lc, ver, ex, att⟩
      simp only at hr
      simp [Rpc.dispatchIncoming, Rpc.postMsg, List.count_eq_zero_of_not_mem hr]
    exact ⟨(Rpc.processPacket t ⟨Rpc.RPCMsg.method idr "ready" true pvr, cr⟩).1,
      (Rpc.processPacket t ⟨Rpc.RPCMsg.method idr "ready" true pvr, cr⟩).2, rfl, hkey⟩

/-- Witness for C9: dispatching a discarded Invocation of the unexposed
method "x" posts a 4003 Reply, and delivering a peer "ready" to an engine
with no "ready" handler posts a 4003 Reply stamped with counter 0. -/
theorem C9_discard_still_errors_witness :
    "x" ∉ ({} : Rpc.RPCState).exposed ∧
    "ready" ∉ ({} : Rpc.RPCState).exposed ∧
    (Rpc.dispatchIncoming {} ⟨Rpc.RPCMsg.method 5 "x" true {}, 2⟩ =
      ({ ({} : Rpc.RPCState) with lastSequentialCall := 2, callCounter := ({} : Rpc.RPCState).callCounter + 1 },
        [Rpc.Out.recv ⟨Rpc.RPCMsg.method 5 "x" true {}, 2⟩,
          Rpc.Out.post ⟨Rpc.RPCMsg.reply 5 Rpc.JVal.null
            (some ⟨4003, "Unknown method name", none⟩), (({} : Rpc.RPCState).callCounter : Int)⟩]) ∧
    ∃ (st : Rpc.RPCState) (outs : List Rpc.Out),
      Rpc.deliver {} (Rpc.Inbound.data (Rpc.rawOfMethod 0 "ready" true { protocolVersion := some "1.0" } 0)) =
        Except.ok (st, outs) ∧
      Rpc.Out.post ⟨Rpc.RPCMsg.reply 0 Rpc.JVal.null
        (some ⟨4003, "Unknown method name", none⟩), 0⟩ ∈ outs) :=
  ⟨by simp, by simp,
    C9_discard_still_errors {} 5 "x" {} 2 (by simp) {} 0 { protocolVersion := some "1.0" } 0
      (by simp) rfl⟩

/-- C4 counterexample: the claim says every malformed inbound payload —
including one that fails to parse — is discarded silently without raising an
exception; but `JSON.parse(ev.data)` is called with no try/catch, so a
payload that fails to parse makes the listener throw (modelled as
`Except.error ()`) instead of returning normally. -/
theorem C4_counterexample :
    Rpc.listener ({} : Rpc.RPCState) Rpc.Inbound.parseError = Except.error () := rfl

/-- C4 (amended): every inbound payload that parses but fails the message
checks (its `type` is neither "method" nor "reply", its counter is not a
number, or its serviceID differs from the protocol tag) is discarded
silently — no exception, no handler invocation, no resolution, and the state
is returned unchanged; a payload that fails to parse, however, makes the
listener throw from `JSON.parse` (still invoking no handler and mutating no
state, since the parse is the listener's first action). -/
theorem C4_foreign_filter (s : Rpc.RPCState) (d : Rpc.RawData)
    (hbad : (!Rpc.isRPCMessage d || d.serviceID != some Rpc.serviceID) = true) :
    Rpc.listener s (Rpc.Inbound.data d) = Except.ok (s, []) ∧
      Rpc.listener s Rpc.Inbound.parseError = Except.error () := by
  constructor
  · rw [Rpc.listener, if_pos hbad]
  · rfl

/-- Witness for C4 (amended): a well-shaped payload carrying a foreign
serviceID is dropped with the state unchanged and no actions. -/
theorem C4_foreign_filter_witness :
    ((!Rpc.isRPCMessage { type := some "method", counter := some (0 : Int), serviceID := some "other-service" } ||
      ({ type := some "method", counter := some (0 : Int), serviceID := some "other-service" } : Rpc.RawData).serviceID != some Rpc.serviceID) = true) ∧
    (Rpc.listener {} (Rpc.Inbound.data { type := some "method", counter := some (0 : Int), serviceID := some "other-service" }) = Except.ok (({} : Rpc.RPCState), []) ∧
      Rpc.listener ({} : Rpc.RPCState) Rpc.Inbound.parseError = Except.error ()) :=
  ⟨by decide, C4_foreign_filter {} _ (by decide)⟩

namespace Rpc

theorem processPacket_ready_version (s : RPCState) (id : Nat) (d : Bool)
    (pv : ParamsV) (c : Int) :
    (processPacket s ⟨RPCMsg.method id "ready" d pv, c⟩).1.remoteProtocolVersion =
      pv.protocolVersion := by
  unfold processPacket
  rw [handleReadyReset_ready, if_pos (by dsimp only; omega)]
  dsimp only
  rw [replayQueue_version, dispatchIncoming_version]

theorem processPacket_version_of_id (s : RPCState) (p : PacketC)
    (hp : handleReadyReset s p = s) :
    (processPacket s p).1.remoteProtocolVersion = s.remoteProtocolVersion := by
  unfold processPacket
  rw [hp]
  dsimp only
  split
  · rw [replayQueue_version, dispatchIncoming_version]
  · rfl

theorem handleReadyReset_toPacket_id (s : RPCState) (d : RawData)
    (hnr : (d.type == some "method" && d.method == "ready") = false) :
    handleReadyReset s (toPacket d) = s := by
  unfold toPacket
  by_cases ht : d.type == some "method"
  · simp only [ht, if_true]
    have hm : d.method ≠ "ready" := by
      simp only [ht, Bool.true_and] at hnr
      simpa using hnr
    exact handleReadyReset_method s d.id d.method d.discard d.params _ hm
  · simp only [ht, if_false]
    exact handleReadyReset_reply s d.id d.result d.error _

theorem deliver_no_ready_version (s : RPCState) (ev : Inbound)
    (r : RPCState × List Out) (hnr : isReadyRecv ev = false)
    (hd : deliver s ev = Except.ok r) :
    r.1.remoteProtocolVersion = s.remoteProtocolVersion := by
  rw [deliver] at hd
  split at hd
  · rcases ev with _ | d
    · exact absurd hd (by simp [listener])
    · rw [listener] at hd
      split at hd
      · injection hd with h
        rw [← h]
      · rename_i hvalid
        injection hd with h
        rw [← h]
        have hor : (!isRPCMessage d || d.serviceID != some serviceID) = false :=
          Bool.eq_false_iff.mpr hvalid
        obtain ⟨h1, h2⟩ := Bool.or_eq_false_iff.mp hor
        have hok1 : isRPCMessage d = true := by simpa using h1
        have hok2 : (d.serviceID == some serviceID) = true := by
          have h3 := bne_eq_false_iff_eq.mp h2
          simpa using h3
        have hnr2 : (d.type == some "method" && d.method == "ready") = false := by
          rw [isReadyRecv, hok1, hok2] at hnr
          simpa using hnr
        exact processPacket_version_of_id s _ (handleReadyReset_toPacket_id s d hnr2)
  · injection hd with h
    rw [← h]

theorem runInbound_no_ready_version : ∀ (evs : List Inbound) (s st : RPCState)
    (outs : List Out), (∀ ev ∈ evs, isReadyRecv ev = false) →
    runInbound s evs = Except.ok (st, outs) →
    st.remoteProtocolVersion = s.remoteProtocolVersion := by
  intro evs
  induction evs with
  | nil =>
    intro s st outs hnr hrun
    injection hrun with h
    rw [Prod.mk.injEq] at h
    rw [← h.1]
  | cons ev rest ih =>
    intro s st outs hnr hrun
    rw [runInbound] at hrun
    rcases hdel : deliver s ev with e | r
    · rw [hdel] at hrun
      exact absurd hrun (by simp)
    · rw [hdel] at hrun
      dsimp only at hrun
      rcases hrest : runInbound r.1 rest with e2 | r2
      · rw [hrest] at hrun
        exact absurd hrun (by simp)
      · rw [hrest] at hrun
        dsimp only at hrun
        injection hrun with h
        rw [Prod.mk.injEq] at h
        have h1 := ih r.1 r2.1 r2.2 (fun e he => hnr e (List.mem_cons_of_mem ev he))
          (by rw [hrest])
        have h2 := deliver_no_ready_version s ev r
          (hnr ev (List.mem_cons_self ev rest)) hdel
        rw [← h.1, h1, h2]

end Rpc

/-- C2: on receipt of a valid "ready" Invocation with counter c, the reset
step sets `lastSequentialCall = c - 1`, records the peer's announced
`protocolVersion` and resets the outgoing counter to 0; the recorded version
is what `remoteVersion()` returns once the listener completes, and it is
undefined (`none`) before the first "ready" — a run containing no "ready"
reception leaves it untouched.  Consequently, after dispatching messages
0..5 from a peer, a fresh "ready" with counter 0 makes subsequently arriving
counters 0,1,2 dispatch correctly in order (and, with "ready" exposed, the
outgoing counter ends the run at 0). -/
theorem C2_ready_handshake (s : Rpc.RPCState) (id : Nat) (d : Bool)
    (pv : Rpc.ParamsV) (c : Int) (v : String) (hv : pv.protocolVersion = some v)
    (st : Rpc.RPCState) (outs : List Rpc.Out)
    (hrun : Rpc.listener s (Rpc.Inbound.data (Rpc.rawOfMethod id "ready" d pv c)) =
      Except.ok (st, outs))
    (evs : List Rpc.Inbound) (s2 st2 : Rpc.RPCState) (outs2 : List Rpc.Out)
    (hnr : ∀ ev ∈ evs, Rpc.isReadyRecv ev = false)
    (hv2 : s2.remoteProtocolVersion = none)
    (hrun2 : Rpc.runInbound s2 evs = Except.ok (st2, outs2)) :
    (Rpc.handleReadyReset s ⟨Rpc.RPCMsg.method id "ready" d pv, c⟩ =
      { s with lastSequentialCall := c - 1,
               remoteProtocolVersion := pv.protocolVersion, callCounter := 0 }) ∧
    Rpc.remoteVersion st = some v ∧
    Rpc.remoteVersion st2 = none ∧
    (∃ (stf : Rpc.RPCState) (outsf : List Rpc.Out),
      Rpc.runInbound { exposed := ["foo", "ready"] }
          [Rpc.Inbound.data (Rpc.rawOfMethod 0 "foo" false {} 0),
           Rpc.Inbound.data (Rpc.rawOfMethod 1 "foo" false {} 1),
           Rpc.Inbound.data (Rpc.rawOfMethod 2 "foo" false {} 2),
           Rpc.Inbound.data (Rpc.rawOfMethod 3 "foo" false {} 3),
           Rpc.Inbound.data (Rpc.rawOfMethod 4 "foo" false {} 4),
           Rpc.Inbound.data (Rpc.rawOfMethod 5 "foo" false {} 5),
           Rpc.Inbound.data (Rpc.rawOfMethod 99 "ready" true { protocolVersion := some "1.1" } 0),
           Rpc.Inbound.data (Rpc.rawOfMethod 10 "foo" false {} 0),
           Rpc.Inbound.data (Rpc.rawOfMethod 11 "foo" false {} 1),
           Rpc.Inbound.data (Rpc.rawOfMethod 12 "foo" false {} 2)] =
        Except.ok (stf, outsf) ∧
      outsf.filter Rpc.isInvoke =
        [Rpc.Out.invokeHandler "foo" 0 false {}, Rpc.Out.invokeHandler "foo" 1 false {},
         Rpc.Out.invokeHandler "foo" 2 false {}, Rpc.Out.invokeHandler "foo" 3 false {},
         Rpc.Out.invokeHandler "foo" 4 false {}, Rpc.Out.invokeHandler "foo" 5 false {},
         Rpc.Out.invokeHandler "ready" 99 true { protocolVersion := some "1.1" },
         Rpc.Out.invokeHandler "foo" 10 false {}, Rpc.Out.invokeHandler "foo" 11 false {},
         Rpc.Out.invokeHandler "foo" 12 false {}] ∧
      stf.callCounter = 0 ∧ stf.lastSequentialCall = 2 ∧
      Rpc.remoteVersion stf = some "1.1") := by
  refine ⟨Rpc.handleReadyReset_ready s id d pv c, ?_, ?_, ?_⟩
  · rw [Rpc.listener_valid_method] at hrun
    injection hrun with h
    rw [Prod.mk.injEq] at h
    rw [Rpc.remoteVersion, ← h.1, Rpc.processPacket_ready_version, hv]
  · rw [Rpc.remoteVersion,
      Rpc.runInbound_no_ready_version evs s2 st2 outs2 hnr hrun2, hv2]
  · exact ⟨_, _, rfl, rfl, rfl, rfl, rfl⟩

/-- Witness for C2: a fresh engine receives "ready" with counter 0 and
version "1.1"; afterwards `remoteVersion()` reports "1.1", while an engine
that only received a "foo" invocation still reports `none`. -/
theorem C2_ready_handshake_witness :
    (({ protocolVersion := some "1.1" } : Rpc.ParamsV).protocolVersion = some "1.1") ∧
    (Rpc.listener {} (Rpc.Inbound.data (Rpc.rawOfMethod 99 "ready" true { protocolVersion := some "1.1" } 0)) =
      Except.ok ({ callCounter := 1, lastSequentialCall := 0, remoteProtocolVersion := some "1.1" },
        [Rpc.Out.recv ⟨Rpc.RPCMsg.method 99 "ready" true { protocolVersion := some "1.1" }, 0⟩,
         Rpc.Out.post ⟨Rpc.RPCMsg.reply 99 Rpc.JVal.null (some ⟨4003, "Unknown method name", none⟩), 0⟩])) ∧
    (∀ ev ∈ [Rpc.Inbound.data (Rpc.rawOfMethod 1 "foo" false {} 0)], Rpc.isReadyRecv ev = false) ∧
    ((Rpc.handleReadyReset {} ⟨Rpc.RPCMsg.method 99 "ready" true { protocolVersion := some "1.1" }, 0⟩ =
      { ({} : Rpc.RPCState) with lastSequentialCall := (0 : Int) - 1, remoteProtocolVersion := ({ protocolVersion := some "1.1" } : Rpc.ParamsV).protocolVersion, callCounter := 0 }) ∧
    Rpc.remoteVersion { callCounter := 1, lastSequentialCall := 0, remoteProtocolVersion := some "1.1" } = some "1.1" ∧
    Rpc.remoteVersion { callCounter := 1, lastSequentialCall := 0 } = none ∧
    (∃ (stf : Rpc.RPCState) (outsf : List Rpc.Out),
      Rpc.runInbound { exposed := ["foo", "ready"] }
          [Rpc.Inbound.data (Rpc.rawOfMethod 0 "foo" false {} 0),
           Rpc.Inbound.data (Rpc.rawOfMethod 1 "foo" false {} 1),
           Rpc.Inbound.data (Rpc.rawOfMethod 2 "foo" false {} 2),
           Rpc.Inbound.data (Rpc.rawOfMethod 3 "foo" false {} 3),
           Rpc.Inbound.data (Rpc.rawOfMethod 4 "foo" false {} 4),
           Rpc.Inbound.data (Rpc.rawOfMethod 5 "foo" false {} 5),
           Rpc.Inbound.data (Rpc.rawOfMethod 99 "ready" true { protocolVersion := some "1.1" } 0),
           Rpc.Inbound.data (Rpc.rawOfMethod 10 "foo" false {} 0),
           Rpc.Inbound.data (Rpc.rawOfMethod 11 "foo" false {} 1),
           Rpc.Inbound.data (Rpc.rawOfMethod 12 "foo" false {} 2)] =
        Except.ok (stf, outsf) ∧
      outsf.filter Rpc.isInvoke =
        [Rpc.Out.invokeHandler "foo" 0 false {}, Rpc.Out.invokeHandler "foo" 1 false {},
         Rpc.Out.invokeHandler "foo" 2 false {}, Rpc.Out.invokeHandler "foo" 3 false {},
         Rpc.Out.invokeHandler "foo" 4 false {}, Rpc.Out.invokeHandler "foo" 5 false {},
         Rpc.Out.invokeHandler "ready" 99 true { protocolVersion := some "1.1" },
         Rpc.Out.invokeHandler "foo" 10 false {}, Rpc.Out.invokeHandler "foo" 11 false {},
         Rpc.Out.invokeHandler "foo" 12 false {}] ∧
      stf.callCounter = 0 ∧ stf.lastSequentialCall = 2 ∧
      Rpc.remoteVersion stf = some "1.1")) :=
  ⟨rfl, rfl, by decide,
    C2_ready_handshake {} 99 true { protocolVersion := some "1.1" } 0 "1.1" rfl
      { callCounter := 1, lastSequentialCall := 0, remoteProtocolVersion := some "1.1" }
      [Rpc.Out.recv ⟨Rpc.RPCMsg.method 99 "ready" true { protocolVersion := some "1.1" }, 0⟩,
       Rpc.Out.post ⟨Rpc.RPCMsg.reply 99 Rpc.JVal.null (some ⟨4003, "Unknown method name", none⟩), 0⟩]
      rfl
      [Rpc.Inbound.data (Rpc.rawOfMethod 1 "foo" false {} 0)]
      {} { callCounter := 1, lastSequentialCall := 0 }
      [Rpc.Out.recv ⟨Rpc.RPCMsg.method 1 "foo" false {}, 0⟩,
       Rpc.Out.post ⟨Rpc.RPCMsg.reply 1 Rpc.JVal.null (some ⟨4003, "Unknown method name", none⟩), 0⟩]
      (by decide) rfl rfl⟩

/-- C10: receiving a "ready" Invocation resets `lastSequentialCall` and the
outgoing counter but leaves the reorder buffer — and the pending-call table,
id counter, handler registrations and attachment — untouched; a message
buffered before the reset remains queued (here the stale counter-8 packet is
still in the buffer right after the reset) and is dispatched in the new
epoch as soon as the new `lastSequentialCall` advances to within one of its
old counter value (here after new-epoch counters 1..7 it is dispatched
last). -/
theorem C10_ready_preserves_queue (s : Rpc.RPCState) (p : Rpc.PacketC) :
    ((Rpc.handleReadyReset s p).remoteCallQueue = s.remoteCallQueue ∧
      (Rpc.handleReadyReset s p).calls = s.calls ∧
      (Rpc.handleReadyReset s p).idCounter = s.idCounter ∧
      (Rpc.handleReadyReset s p).exposed = s.exposed ∧
      (Rpc.handleReadyReset s p).attached = s.attached) ∧
    (∃ (stA : Rpc.RPCState) (outsA : List Rpc.Out),
      Rpc.runInbound { exposed := ["foo"] }
          [Rpc.Inbound.data (Rpc.rawOfMethod 0 "foo" false {} 0),
           Rpc.Inbound.data (Rpc.rawOfMethod 1 "foo" false {} 1),
           Rpc.Inbound.data (Rpc.rawOfMethod 2 "foo" false {} 2),
           Rpc.Inbound.data (Rpc.rawOfMethod 3 "foo" false {} 3),
           Rpc.Inbound.data (Rpc.rawOfMethod 4 "foo" false {} 4),
           Rpc.Inbound.data (Rpc.rawOfMethod 5 "foo" false {} 5),
           Rpc.Inbound.data (Rpc.rawOfMethod 88 "foo" false {} 8),
           Rpc.Inbound.data (Rpc.rawOfMethod 99 "ready" true { protocolVersion := some "2.0" } 0)] =
        Except.ok (stA, outsA) ∧
      stA.remoteCallQueue = [⟨Rpc.RPCMsg.method 88 "foo" false {}, 8⟩] ∧
      stA.lastSequentialCall = 0) ∧
    (∃ (stB : Rpc.RPCState) (outsB : List Rpc.Out),
      Rpc.runInbound { exposed := ["foo"] }
          [Rpc.Inbound.data (Rpc.rawOfMethod 0 "foo" false {} 0),
           Rpc.Inbound.data (Rpc.rawOfMethod 1 "foo" false {} 1),
           Rpc.Inbound.data (Rpc.rawOfMethod 2 "foo" false {} 2),
           Rpc.Inbound.data (Rpc.rawOfMethod 3 "foo" false {} 3),
           Rpc.Inbound.data (Rpc.rawOfMethod 4 "foo" false {} 4),
           Rpc.Inbound.data (Rpc.rawOfMethod 5 "foo" false {} 5),
           Rpc.Inbound.data (Rpc.rawOfMethod 88 "foo" false {} 8),
           Rpc.Inbound.data (Rpc.rawOfMethod 99 "ready" true { protocolVersion := some "2.0" } 0),
           Rpc.Inbound.data (Rpc.rawOfMethod 10 "foo" false {} 1),
           Rpc.Inbound.data (Rpc.rawOfMethod 11 "foo" false {} 2),
           Rpc.Inbound.data (Rpc.rawOfMethod 12 "foo" false {} 3),
           Rpc.Inbound.data (Rpc.rawOfMethod 13 "foo" false {} 4),
           Rpc.Inbound.data (Rpc.rawOfMethod 14 "foo" false {} 5),
           Rpc.Inbound.data (Rpc.rawOfMethod 15 "foo" false {} 6),
           Rpc.Inbound.data (Rpc.rawOfMethod 16 "foo" false {} 7)] =
        Except.ok (stB, outsB) ∧
      outsB.filter Rpc.isInvoke =
        [Rpc.Out.invokeHandler "foo" 0 false {}, Rpc.Out.invokeHandler "foo" 1 false {},
         Rpc.Out.invokeHandler "foo" 2 false {}, Rpc.Out.invokeHandler "foo" 3 false {},
         Rpc.Out.invokeHandler "foo" 4 false {}, Rpc.Out.invokeHandler "foo" 5 false {},
         Rpc.Out.invokeHandler "foo" 10 false {}, Rpc.Out.invokeHandler "foo" 11 false {},
         Rpc.Out.invokeHandler "foo" 12 false {}, Rpc.Out.invokeHandler "foo" 13 false {},
         Rpc.Out.invokeHandler "foo" 14 false {}, Rpc.Out.invokeHandler "foo" 15 false {},
         Rpc.Out.invokeHandler "foo" 16 false {}, Rpc.Out.invokeHandler "foo" 88 false {}] ∧
      stB.remoteCallQueue = [] ∧ stB.lastSequentialCall = 8) := by
  refine ⟨?_, ⟨_, _, rfl, rfl, rfl⟩, ⟨_, _, rfl, rfl, rfl, rfl⟩⟩
  rcases p with ⟨msg, c⟩
  rcases msg with ⟨pid, m, d0, pv⟩ | ⟨pid, r, e⟩
  · by_cases hm : m = "ready"
    · subst hm
      rw [Rpc.handleReadyReset_ready]
      exact ⟨rfl, rfl, rfl, rfl, rfl⟩
    · rw [Rpc.handleReadyReset_method _ _ _ _ _ _ hm]
      exact ⟨rfl, rfl, rfl, rfl, rfl⟩
  · rw [Rpc.handleReadyReset_reply]
    exact ⟨rfl, rfl, rfl, rfl, rfl⟩

